import Mathlib

/-!
Verification of the financial-scraper core: the two-tier fact extractor of
`scrape_10q.py` (`AMZN10QScraper.extract_financial_data`) and the
filing-date-to-closing-price aligner of `scrape_price.py`
(`scrape_amzn_prices`, the per-record matching loop).

Modelling conventions.
Document text and table cells are `List Char`.  Python `float` values are
modelled as `ℚ` (every numeral the extraction regexes can produce is a finite
decimal, which `ℚ` represents exactly; the magnitude comparisons and the
`> 1000` floor performed by the code are order comparisons, which agree).
Each regular expression used by the source is embedded as a deterministic
matcher; for these particular patterns greedy matching never needs
backtracking (after each one-or-more character class the following token
starts with a character outside that class, and the optional `$`-or-`(`
prefix is followed by a class disjoint from it), so the deterministic
matcher computes exactly the leftmost match that Python `re.search` /
`re.findall` would return, and the captured group is the same.
-/

/-- Python `\s` (ASCII range, as produced by the scraped text model). -/
def isPySpace (c : Char) : Bool :=
  c == ' ' || c == '\t' || c == '\n' || c == '\r' || c == '\x0b' || c == '\x0c'

/-- The character class `[:\s]` appearing after each label. -/
def isColonSpace (c : Char) : Bool :=
  c == ':' || isPySpace c

/-- The character class `[-\s]` of `Weighted[-\s]+average`. -/
def isHyphSpace (c : Char) : Bool :=
  c == '-' || isPySpace c

/-- The character class `[\d,]` that starts a captured numeral. -/
def isNumChar (c : Char) : Bool :=
  c.isDigit || c == ','

/-- Case-insensitive literal token: consume `lit` (given lowercased) from the
front of the text, returning the rest.  Models a literal regex fragment under
`re.IGNORECASE`. -/
def matchLitCI : List Char → List Char → Option (List Char)
  | [], s => some s
  | _ :: _, [] => none
  | l :: ls, c :: cs => if c.toLower == l then matchLitCI ls cs else none

/-- One-or-more of a character class, greedy (`\s+`, `[:\s]+`, `[-\s]+`). -/
def matchPlus (p : Char → Bool) : List Char → Option (List Char)
  | [] => none
  | c :: cs => if p c then some (cs.dropWhile p) else none

/-- The captured numeral `([\d,]+(?:\.\d+)?)`, greedy: maximal run of digits
and commas, then a dot followed by at least one digit if present.  Returns
the captured group and the remaining text. -/
def matchNum (s : List Char) : Option (List Char × List Char) :=
  match s.takeWhile isNumChar with
  | [] => none
  | ds =>
    match s.dropWhile isNumChar with
    | '.' :: r2 =>
      match r2.takeWhile Char.isDigit with
      | [] => some (ds, '.' :: r2)
      | fs => some (ds ++ '.' :: fs, r2.dropWhile Char.isDigit)
    | r => some (ds, r)

/-- `[\$\(]?` followed by the captured numeral.  The optional `$`/`(` and the
numeral's first character are disjoint classes, so greedy matching equals the
backtracking semantics of Python `re`. -/
def matchMoneyNum : List Char → Option (List Char × List Char)
  | [] => none
  | c :: cs =>
    if c == '$' || c == '(' then matchNum cs else matchNum (c :: cs)

/-- Scan start positions left to right and return the first position where
the matcher succeeds: the semantics of `re.search` / first `re.findall`
match for a deterministic per-position matcher. -/
def research (m : List Char → Option (List Char)) : List Char → Option (List Char)
  | [] => m []
  | c :: t =>
    match m (c :: t) with
    | some g => some g
    | none => research m t

/-- `value.replace(',', '')` on the captured group. -/
def stripCommas (s : List Char) : List Char :=
  s.filter (fun c => !(c == ','))

/-- Numeric value of a digit string. -/
def natVal (ds : List Char) : ℕ :=
  ds.foldl (fun a c => 10 * a + (c.toNat - 48)) 0

/-- Python `float` on the strings the numeral regexes can produce after
comma removal (`digits* ('.' digits+)?`, plus the error cases `""` and a
bare `"."`): `none` models `ValueError`. -/
def pyFloat? (s : List Char) : Option ℚ :=
  match s.dropWhile Char.isDigit with
  | [] =>
    match s.takeWhile Char.isDigit with
    | [] => none
    | ds => some (natVal ds : ℚ)
  | '.' :: fp =>
    if (s.takeWhile Char.isDigit).isEmpty && fp.isEmpty then none
    else if fp.all Char.isDigit then
      some ((natVal (s.takeWhile Char.isDigit) : ℚ) + (natVal fp : ℚ) / (10 : ℚ) ^ fp.length)
    else none
  | _ => none

/-- `r'Net\s+income[:\s]+[\$\(]?([\d,]+(?:\.\d+)?)'` at one position. -/
def matchAtNetIncome1 (s : List Char) : Option (List Char) := do
  let s1 ← matchLitCI ("net".data) s
  let s2 ← matchPlus isPySpace s1
  let s3 ← matchLitCI ("income".data) s2
  let s4 ← matchPlus isColonSpace s3
  let (g, _) ← matchMoneyNum s4
  pure g

/-- `r'Net\s+earnings[:\s]+[\$\(]?([\d,]+(?:\.\d+)?)'` at one position. -/
def matchAtNetIncome2 (s : List Char) : Option (List Char) := do
  let s1 ← matchLitCI ("net".data) s
  let s2 ← matchPlus isPySpace s1
  let s3 ← matchLitCI ("earnings".data) s2
  let s4 ← matchPlus isColonSpace s3
  let (g, _) ← matchMoneyNum s4
  pure g

/-- `r'Net\s+income\s+\(loss\)[:\s]+[\$\(]?([\d,]+(?:\.\d+)?)'` at one position. -/
def matchAtNetIncome3 (s : List Char) : Option (List Char) := do
  let s1 ← matchLitCI ("net".data) s
  let s2 ← matchPlus isPySpace s1
  let s3 ← matchLitCI ("income".data) s2
  let s4 ← matchPlus isPySpace s3
  let s5 ← matchLitCI ("(loss)".data) s4
  let s6 ← matchPlus isColonSpace s5
  let (g, _) ← matchMoneyNum s6
  pure g

/-- `r'Preferred\s+stock\s+dividends[:\s]+[\$\(]?([\d,]+(?:\.\d+)?)'`. -/
def matchAtPrefDiv1 (s : List Char) : Option (List Char) := do
  let s1 ← matchLitCI ("preferred".data) s
  let s2 ← matchPlus isPySpace s1
  let s3 ← matchLitCI ("stock".data) s2
  let s4 ← matchPlus isPySpace s3
  let s5 ← matchLitCI ("dividends".data) s4
  let s6 ← matchPlus isColonSpace s5
  let (g, _) ← matchMoneyNum s6
  pure g

/-- `r'Dividends\s+on\s+preferred\s+stock[:\s]+[\$\(]?([\d,]+(?:\.\d+)?)'`. -/
def matchAtPrefDiv2 (s : List Char) : Option (List Char) := do
  let s1 ← matchLitCI ("dividends".data) s
  let s2 ← matchPlus isPySpace s1
  let s3 ← matchLitCI ("on".data) s2
  let s4 ← matchPlus isPySpace s3
  let s5 ← matchLitCI ("preferred".data) s4
  let s6 ← matchPlus isPySpace s5
  let s7 ← matchLitCI ("stock".data) s6
  let s8 ← matchPlus isColonSpace s7
  let (g, _) ← matchMoneyNum s8
  pure g

/-- `r'Weighted[-\s]+average\s+common\s+shares\s+outstanding[:\s]+([\d,]+(?:\.\d+)?)'`. -/
def matchAtShares1 (s : List Char) : Option (List Char) := do
  let s1 ← matchLitCI ("weighted".data) s
  let s2 ← matchPlus isHyphSpace s1
  let s3 ← matchLitCI ("average".data) s2
  let s4 ← matchPlus isPySpace s3
  let s5 ← matchLitCI ("common".data) s4
  let s6 ← matchPlus isPySpace s5
  let s7 ← matchLitCI ("shares".data) s6
  let s8 ← matchPlus isPySpace s7
  let s9 ← matchLitCI ("outstanding".data) s8
  let s10 ← matchPlus isColonSpace s9
  let (g, _) ← matchNum s10
  pure g

/-- `r'Weighted[-\s]+average\s+shares\s+outstanding[:\s]+([\d,]+(?:\.\d+)?)'`. -/
def matchAtShares2 (s : List Char) : Option (List Char) := do
  let s1 ← matchLitCI ("weighted".data) s
  let s2 ← matchPlus isHyphSpace s1
  let s3 ← matchLitCI ("average".data) s2
  let s4 ← matchPlus isPySpace s3
  let s5 ← matchLitCI ("shares".data) s4
  let s6 ← matchPlus isPySpace s5
  let s7 ← matchLitCI ("outstanding".data) s6
  let s8 ← matchPlus isColonSpace s7
  let (g, _) ← matchNum s8
  pure g

/-- `r'Average\s+shares\s+outstanding[:\s]+([\d,]+(?:\.\d+)?)'`. -/
def matchAtShares3 (s : List Char) : Option (List Char) := do
  let s1 ← matchLitCI ("average".data) s
  let s2 ← matchPlus isPySpace s1
  let s3 ← matchLitCI ("shares".data) s2
  let s4 ← matchPlus isPySpace s3
  let s5 ← matchLitCI ("outstanding".data) s4
  let s6 ← matchPlus isColonSpace s5
  let (g, _) ← matchNum s6
  pure g

/-- The value a pattern contributes: the first match's captured group, with
grouping commas removed, parsed as a decimal; `none` when there is no match
or the numeral fails to parse (the `except ValueError: continue` path). -/
def patValue (p : List Char → Option (List Char)) (text : List Char) : Option ℚ :=
  (p text).bind fun g => pyFloat? (stripCommas g)

/-- The Tier-1 loop `for pattern in patterns: ...` of
`extract_financial_data`: patterns in priority order, first pattern whose
first occurrence parses wins; a parse failure falls through to the next
pattern. -/
def tier1Loop : List (List Char → Option (List Char)) → List Char → Option ℚ
  | [], _ => none
  | p :: ps, text =>
    match patValue p text with
    | some v => some v
    | none => tier1Loop ps text

/-- `net_income_patterns`, compiled to first-occurrence searchers. -/
def netIncomePatterns : List (List Char → Option (List Char)) :=
  [research matchAtNetIncome1, research matchAtNetIncome2, research matchAtNetIncome3]

/-- `preferred_dividends_patterns`. -/
def preferredDividendsPatterns : List (List Char → Option (List Char)) :=
  [research matchAtPrefDiv1, research matchAtPrefDiv2]

/-- `shares_patterns`. -/
def sharesPatterns : List (List Char → Option (List Char)) :=
  [research matchAtShares1, research matchAtShares2, research matchAtShares3]

/-- One table cell's stripped text. -/
abbrev Cell := List Char

/-- One table row, its cells in document order. -/
abbrev Row := List Cell

/-- One table: rows in document order. -/
abbrev TableT := List Row

/-- The extractor's record `data`, the three facts. -/
structure FinData where
  net_income : Option ℚ
  preferred_dividends : Option ℚ
  weighted_avg_shares : Option ℚ
deriving DecidableEq

/-- Input to the extractor: the flattened text and the parsed tables. -/
structure FilingDocument where
  raw_text : List Char
  tables : List TableT

/-- `' '.join(cells)`. -/
def joinSpace : List Cell → List Char
  | [] => []
  | [c] => c
  | c :: cs => c ++ ' ' :: joinSpace cs

/-- Lowercasing, `str.lower()` (ASCII model). -/
def lowerStr (s : List Char) : List Char :=
  s.map Char.toLower

/-- Does `hay` begin with `needle`? -/
def beginsWith : List Char → List Char → Bool
  | [], _ => true
  | _ :: _, [] => false
  | a :: as, b :: bs => a == b && beginsWith as bs

/-- Python substring containment `needle in hay`. -/
def containsSub (needle : List Char) : List Char → Bool
  | [] => beginsWith needle []
  | c :: t => beginsWith needle (c :: t) || containsSub needle t

/-- `row_text = ' '.join(cells).lower()`. -/
def rowTextOf (cells : Row) : List Char :=
  lowerStr (joinSpace cells)

/-- `'net income' in row_text or 'net earnings' in row_text`. -/
def isNetIncomeRow (cells : Row) : Bool :=
  containsSub ("net income".data) (rowTextOf cells)
    || containsSub ("net earnings".data) (rowTextOf cells)

/-- `'weighted average' in row_text and 'shares' in row_text`. -/
def isSharesRow (cells : Row) : Bool :=
  containsSub ("weighted average".data) (rowTextOf cells)
    && containsSub ("shares".data) (rowTextOf cells)

/-- `numbers[0]` of `re.findall(r'[\$\(]?([\d,]+(?:\.\d+)?)', cell)`:
the first match's captured group. -/
def firstNumA (cell : Cell) : Option (List Char) :=
  research (fun s => (matchMoneyNum s).map Prod.fst) cell

/-- `numbers[0]` of `re.findall(r'([\d,]+(?:\.\d+)?)', cell)`. -/
def firstNumB (cell : Cell) : Option (List Char) :=
  research (fun s => (matchNum s).map Prod.fst) cell

/-- The parsed candidate a cell contributes to a net-income row. -/
def netIncomeCandidate (cell : Cell) : Option ℚ :=
  (firstNumA cell).bind fun g => pyFloat? (stripCommas g)

/-- The parsed candidate a cell contributes to a shares row. -/
def sharesCandidate (cell : Cell) : Option ℚ :=
  (firstNumB cell).bind fun g => pyFloat? (stripCommas g)

/-- Per-cell update of `data['net_income']` in a net-income row:
overwrite when no value is stored yet or the candidate's magnitude is
strictly larger. -/
def updateNI (cur : Option ℚ) (cell : Cell) : Option ℚ :=
  match netIncomeCandidate cell with
  | none => cur
  | some v =>
    match cur with
    | none => some v
    | some x => if |x| < |v| then some v else some x

/-- Per-cell update of `data['weighted_avg_shares']` in a shares row:
overwrite unconditionally, but only by a candidate strictly above 1000. -/
def updateWAS (cur : Option ℚ) (cell : Cell) : Option ℚ :=
  match sharesCandidate cell with
  | none => cur
  | some v => if 1000 < v then some v else cur

/-- One table row of the Tier-2 pass: classify by the joined lowered row
text, then fold the matching per-cell updates over the cells in order. -/
def processRow (d : FinData) (cells : Row) : FinData :=
  let d1 :=
    if isNetIncomeRow cells then
      { d with net_income := cells.foldl updateNI d.net_income }
    else d
  if isSharesRow cells then
    { d1 with weighted_avg_shares := cells.foldl updateWAS d1.weighted_avg_shares }
  else d1

/-- The Tier-2 pass: every row of every table, in document order. -/
def tablePass (d : FinData) (tables : List TableT) : FinData :=
  tables.foldl (fun d rows => rows.foldl processRow d) d

/-- The preferred-dividends value after Tier 1 and the `0.0` default:
the Tier-1 match when there is one, `0.0` otherwise. -/
def dividendsAfterTier1 (text : List Char) : Option ℚ :=
  match tier1Loop preferredDividendsPatterns text with
  | none => some (0 : ℚ)
  | some v => some v

/-- `extract_financial_data`: Tier-1 regex pass for each fact, the
preferred-dividends `0.0` default, then the table pass. -/
def extract_financial_data (doc : FilingDocument) : FinData :=
  tablePass
    ⟨tier1Loop netIncomePatterns doc.raw_text,
     dividendsAfterTier1 doc.raw_text,
     tier1Loop sharesPatterns doc.raw_text⟩
    doc.tables

/-- The qualifying shares candidates of a table row: the per-cell parsed
first numerals that clear the `> 1000` floor, in cell order. -/
def qualShares (cells : Row) : List ℚ :=
  (cells.filterMap sharesCandidate).filter (fun v => decide (1000 < v))

/-- A price series: `(trading_date, close)` pairs in index order.  Dates are
modelled as natural numbers (day ordinals). -/
abbrev PriceSeries := List (ℕ × ℚ)

/-- The per-record alignment of `scrape_amzn_prices`: exact date lookup,
else the first index entry at or after the filing date, else the last index
entry at or before it, else `None`. -/
def closing_price_for (series : PriceSeries) (d : ℕ) : Option ℚ :=
  match series.find? (fun p => p.1 == d) with
  | some p => some p.2
  | none =>
    match series.filter (fun p => decide (d ≤ p.1)) with
    | p :: _ => some p.2
    | [] =>
      match (series.filter (fun p => decide (p.1 ≤ d))).getLast? with
      | some p => some p.2
      | none => none

/-- Minimum-date entry of a series (the spec's `min(candidates_forward)`). -/
def argminD : PriceSeries → Option (ℕ × ℚ)
  | [] => none
  | p :: ps =>
    match argminD ps with
    | none => some p
    | some q => if p.1 ≤ q.1 then some p else some q

/-- Maximum-date entry of a series (the spec's `max(candidates_backward)`). -/
def argmaxD : PriceSeries → Option (ℕ × ℚ)
  | [] => none
  | p :: ps =>
    match argmaxD ps with
    | none => some p
    | some q => if p.1 ≤ q.1 then some q else some p

/-- The spec's statement of the aligner, written from its words: exact entry
when present; else the close at the minimum of the dates at or after the
filing date; else the close at the maximum of the dates at or before it;
else null. -/
def closingPriceSpec (series : PriceSeries) (d : ℕ) : Option ℚ :=
  match series.filter (fun p => p.1 == d) with
  | p :: _ => some p.2
  | [] =>
    match argminD (series.filter (fun p => decide (d ≤ p.1))) with
    | some p => some p.2
    | none =>
      match argmaxD (series.filter (fun p => decide (p.1 ≤ d))) with
      | some p => some p.2
      | none => none

/-- One record of the alignment loop: parse the filing-date string (the
parser is the external `pd.to_datetime`, passed in as a capability); a parse
failure yields `None` for that record, otherwise the aligned close. -/
def alignOne (parseDate : List Char → Option ℕ) (series : PriceSeries)
    (s : List Char) : Option ℚ :=
  match parseDate s with
  | none => none
  | some d => closing_price_for series d

/-- The batch loop of `scrape_amzn_prices`: start from an empty
`close_prices` list and append one result per record, in order. -/
def alignBatch (parseDate : List Char → Option ℕ) (series : PriceSeries)
    (dates : List (List Char)) : List (Option ℚ) :=
  dates.foldl (fun acc s => acc ++ [alignOne parseDate series s]) []

/-! ## Helper lemmas -/

/-- `find?` returns the head of the filtered list. -/
theorem find?_eq_head?_filter {α : Type} (p : α → Bool) (l : List α) :
    l.find? p = (l.filter p).head? := by
  induction l with
  | nil => rfl
  | cons a t ih =>
    cases h : p a with
    | true =>
      rw [List.find?_cons_of_pos _ h, List.filter_cons, if_pos h, List.head?_cons]
    | false =>
      rw [List.find?_cons_of_neg _ (by simp [h]), List.filter_cons,
        if_neg (by simp [h]), ih]

/-- `getLast?` of a cons, by cases on the tail's `getLast?`. -/
theorem getLast?_cons_eq {α : Type} (a : α) (l : List α) :
    (a :: l).getLast? =
      match l.getLast? with
      | none => some a
      | some b => some b := by
  cases l with
  | nil => rfl
  | cons b t =>
    rw [List.getLast?_cons_cons]
    cases hh : (b :: t).getLast? with
    | none => exact absurd (List.getLast?_eq_none_iff.mp hh) (by simp)
    | some c => rfl

/-- An entry returned by `getLast?` is a member. -/
theorem mem_of_getLast?_eq {α : Type} {l : List α} {a : α}
    (h : l.getLast? = some a) : a ∈ l := by
  induction l with
  | nil => simp at h
  | cons b t ih =>
    cases t with
    | nil =>
      rw [List.getLast?_singleton] at h
      cases h
      exact List.mem_cons_self _ _
    | cons c t2 =>
      rw [List.getLast?_cons_cons] at h
      exact List.mem_cons_of_mem _ (ih h)

/-- Folding "overwrite with each element" lands on the last element. -/
theorem foldl_overwrite_eq_getLast? (cur : Option ℚ) (l : List ℚ) :
    l.foldl (fun _ v => some v) cur =
      match l.getLast? with
      | none => cur
      | some v => some v := by
  induction l generalizing cur with
  | nil => rfl
  | cons a t ih =>
    rw [List.foldl_cons, ih, getLast?_cons_eq]
    cases h : t.getLast? <;> rfl

/-- The shares-cell fold is the overwrite fold over the qualifying
candidates. -/
theorem foldl_updateWAS_eq (cur : Option ℚ) (cells : Row) :
    cells.foldl updateWAS cur =
      (qualShares cells).foldl (fun _ v => some v) cur := by
  induction cells generalizing cur with
  | nil => rfl
  | cons c cs ih =>
    rw [List.foldl_cons, ih]
    unfold qualShares
    rw [List.filterMap_cons]
    cases hc : sharesCandidate c with
    | none => simp [updateWAS, hc]
    | some v =>
      by_cases hv : (1000 : ℚ) < v
      · simp [updateWAS, hc, hv, List.filter_cons]
      · simp [updateWAS, hc, hv, List.filter_cons]

/-- The shares-cell fold keeps the prior value exactly when no candidate
qualifies, and otherwise ends at the last qualifying candidate. -/
theorem foldl_updateWAS_getLast (cur : Option ℚ) (cells : Row) :
    cells.foldl updateWAS cur =
      match (qualShares cells).getLast? with
      | none => cur
      | some v => some v := by
  rw [foldl_updateWAS_eq, foldl_overwrite_eq_getLast?]

/-- A row never writes the dividends field. -/
theorem processRow_pd (d : FinData) (row : Row) :
    (processRow d row).preferred_dividends = d.preferred_dividends := by
  unfold processRow
  by_cases h1 : isNetIncomeRow row <;> by_cases h2 : isSharesRow row <;>
    simp [h1, h2]

/-- A fold of rows never writes the dividends field. -/
theorem foldl_processRow_pd (rows : TableT) (d : FinData) :
    (rows.foldl processRow d).preferred_dividends = d.preferred_dividends := by
  induction rows generalizing d with
  | nil => rfl
  | cons r rs ih => rw [List.foldl_cons, ih, processRow_pd]

/-- The whole table pass never writes the dividends field. -/
theorem tablePass_pd (tables : List TableT) (d : FinData) :
    (tablePass d tables).preferred_dividends = d.preferred_dividends := by
  induction tables generalizing d with
  | nil => rfl
  | cons t ts ih =>
    show ((t :: ts).foldl (fun d rows => rows.foldl processRow d) d).preferred_dividends = _
    rw [List.foldl_cons]
    exact (ih _).trans (foldl_processRow_pd t d)

/-- A row with no qualifying shares candidate keeps the shares field. -/
theorem processRow_was_of_no_qual (d : FinData) (row : Row)
    (h : qualShares row = []) :
    (processRow d row).weighted_avg_shares = d.weighted_avg_shares := by
  unfold processRow
  by_cases h1 : isNetIncomeRow row <;> by_cases h2 : isSharesRow row <;>
    simp [h1, h2, foldl_updateWAS_getLast, h]

/-- Rows with no qualifying shares candidates keep the shares field. -/
theorem foldl_processRow_was_of_no_qual (rows : TableT) (d : FinData)
    (h : ∀ row ∈ rows, qualShares row = []) :
    (rows.foldl processRow d).weighted_avg_shares = d.weighted_avg_shares := by
  induction rows generalizing d with
  | nil => rfl
  | cons r rs ih =>
    rw [List.foldl_cons,
      ih _ (fun row hr => h row (List.mem_cons_of_mem _ hr)),
      processRow_was_of_no_qual _ _ (h r (List.mem_cons_self _ _))]

/-- A table pass with no qualifying shares candidate anywhere keeps the
shares field. -/
theorem tablePass_was_of_no_qual (tables : List TableT) (d : FinData)
    (h : ∀ t ∈ tables, ∀ row ∈ t, qualShares row = []) :
    (tablePass d tables).weighted_avg_shares = d.weighted_avg_shares := by
  induction tables generalizing d with
  | nil => rfl
  | cons t ts ih =>
    show ((t :: ts).foldl (fun d rows => rows.foldl processRow d) d).weighted_avg_shares = _
    rw [List.foldl_cons]
    exact (ih _ (fun t' ht' => h t' (List.mem_cons_of_mem _ ht'))).trans
      (foldl_processRow_was_of_no_qual t d (h t (List.mem_cons_self _ _)))

/-- On a strictly date-ascending series, the minimum-date entry is the head. -/
theorem argminD_eq_head? (l : PriceSeries)
    (h : l.Pairwise (fun p q => p.1 < q.1)) : argminD l = l.head? := by
  induction l with
  | nil => rfl
  | cons a t ih =>
    have ha : ∀ x ∈ t, a.1 < x.1 := (List.pairwise_cons.mp h).1
    have ht : t.Pairwise (fun p q => p.1 < q.1) := (List.pairwise_cons.mp h).2
    rw [argminD, ih ht]
    cases t with
    | nil => rfl
    | cons b t2 =>
      have hab : a.1 ≤ b.1 := le_of_lt (ha b (List.mem_cons_self _ _))
      simp [List.head?_cons, hab]

/-- On a strictly date-ascending series, the maximum-date entry is the last. -/
theorem argmaxD_eq_getLast? (l : PriceSeries)
    (h : l.Pairwise (fun p q => p.1 < q.1)) : argmaxD l = l.getLast? := by
  induction l with
  | nil => rfl
  | cons a t ih =>
    have ha : ∀ x ∈ t, a.1 < x.1 := (List.pairwise_cons.mp h).1
    have ht : t.Pairwise (fun p q => p.1 < q.1) := (List.pairwise_cons.mp h).2
    rw [argmaxD, ih ht, getLast?_cons_eq]
    cases hL : t.getLast? with
    | none => rfl
    | some q =>
      have hq : a.1 ≤ q.1 := le_of_lt (ha q (mem_of_getLast?_eq hL))
      simp [hq]

/-- C3 core: on an ascending, date-unique series the code's index-order
choices (head of the forward filter, last of the backward filter) realize
the spec's `min(candidates_forward)` / `max(candidates_backward)`. -/
theorem closing_price_for_eq_spec (series : PriceSeries) (d : ℕ)
    (hs : series.Pairwise (fun p q => p.1 < q.1)) :
    closing_price_for series d = closingPriceSpec series d := by
  unfold closing_price_for closingPriceSpec
  rw [find?_eq_head?_filter]
  cases hE : series.filter (fun p => p.1 == d) with
  | cons p ps => rfl
  | nil =>
    rw [argminD_eq_head? _ (hs.filter _)]
    cases hF : series.filter (fun p => decide (d ≤ p.1)) with
    | cons p ps => rfl
    | nil =>
      rw [argmaxD_eq_getLast? _ (hs.filter _)]

/-- Appending one image per element onto an accumulator is `map`. -/
theorem foldl_append_singleton_eq_map {α β : Type} (f : α → β) (l : List α)
    (acc : List β) :
    l.foldl (fun a s => a ++ [f s]) acc = acc ++ l.map f := by
  induction l generalizing acc with
  | nil => simp
  | cons a t ih => simp [List.foldl_cons, ih]

/-- The batch loop computes one result per record, in order. -/
theorem alignBatch_eq_map (parseDate : List Char → Option ℕ)
    (series : PriceSeries) (dates : List (List Char)) :
    alignBatch parseDate series dates = dates.map (alignOne parseDate series) := by
  unfold alignBatch
  rw [foldl_append_singleton_eq_map]
  rfl

/-! ## Claim theorems -/

/-- C1.  Net-income table override: a net-income-classified table row whose
cell yields a parsed candidate `Y` overwrites the running net-income value
exactly when there is no value yet or `|Y|` strictly exceeds the stored
magnitude; with a stored Tier-1 value `X` and `|Y| ≤ |X|`, `X` is kept. -/
theorem net_income_table_override (pdv wsv : Option ℚ) (X Y : ℚ)
    (label num : Cell)
    (hrow : isNetIncomeRow [label, num] = true)
    (hlabel : netIncomeCandidate label = none)
    (hnum : netIncomeCandidate num = some Y) :
    (processRow ⟨some X, pdv, wsv⟩ [label, num]).net_income
        = some (if |X| < |Y| then Y else X) ∧
    (processRow ⟨none, pdv, wsv⟩ [label, num]).net_income = some Y := by
  constructor <;>
  · by_cases hs : isSharesRow [label, num] <;>
      by_cases habs : |X| < |Y| <;>
        simp [processRow, hrow, hs, updateNI, hlabel, hnum, habs]

/-- C1 witness. -/
theorem net_income_table_override_witness :
    (processRow ⟨some 100, some 0, none⟩
        ["Net income".data, "$2,000".data]).net_income = some 2000 ∧
    (processRow ⟨none, some 0, none⟩
        ["Net income".data, "$2,000".data]).net_income = some 2000 := by
  have h := net_income_table_override (some 0) none 100 2000
    ("Net income".data) ("$2,000".data) (by decide) (by decide) (by decide)
  exact ⟨h.1.trans (by norm_num), h.2⟩

/-- C2.  Shares-row rule: in a row containing both "weighted average" and
"shares", only candidates strictly above 1000 are ever accepted, each
qualifying candidate overwrites unconditionally, and the row leaves the
last qualifying cell value (or the prior value when no cell qualifies). -/
theorem shares_row_floor_and_last_qualifier (d : FinData) (cells : Row)
    (hrow : isSharesRow cells = true) :
    (processRow d cells).weighted_avg_shares =
      match (qualShares cells).getLast? with
      | none => d.weighted_avg_shares
      | some v => some v := by
  by_cases hni : isNetIncomeRow cells <;>
    simp [processRow, hrow, hni, foldl_updateWAS_getLast]

/-- C2 witness: 900 fails the floor, 2000 and 3000 qualify, the last wins. -/
theorem shares_row_floor_and_last_qualifier_witness :
    (processRow ⟨none, some 0, some 5⟩
        ["Weighted average shares outstanding".data,
         "900".data, "2,000".data, "3,000".data]).weighted_avg_shares
      = some 3000 := by
  have h := shares_row_floor_and_last_qualifier ⟨none, some 0, some 5⟩
    ["Weighted average shares outstanding".data,
     "900".data, "2,000".data, "3,000".data] (by decide)
  exact h.trans (by decide)

/-- C5.  Dividend default: when the Tier-1 pass finds no preferred-dividends
match, the extracted value is exactly `0.0`; in every case the extracted
preferred-dividends field is non-null (the table pass never writes it). -/
theorem preferred_dividends_default_and_total (doc : FilingDocument) :
    (tier1Loop preferredDividendsPatterns doc.raw_text = none →
      (extract_financial_data doc).preferred_dividends = some 0) ∧
    (extract_financial_data doc).preferred_dividends ≠ none := by
  unfold extract_financial_data
  rw [tablePass_pd]
  unfold dividendsAfterTier1
  cases h : tier1Loop preferredDividendsPatterns doc.raw_text <;> simp

/-- C5 witness: a document with no dividend text defaults to `0.0`. -/
theorem preferred_dividends_default_and_total_witness :
    (extract_financial_data ⟨"hello".data, []⟩).preferred_dividends = some 0 :=
  (preferred_dividends_default_and_total ⟨"hello".data, []⟩).1 (by decide)

/-- C6.  Tier-1 pattern priority: when every earlier pattern in the list
yields nothing (no occurrence, or a first occurrence whose numeral fails to
parse) and pattern `p`'s first occurrence parses to `v`, the Tier-1 loop
returns `v`. -/
theorem tier1_priority_order (pre post : List (List Char → Option (List Char)))
    (p : List Char → Option (List Char)) (text : List Char) (v : ℚ)
    (hpre : ∀ q ∈ pre, patValue q text = none)
    (hp : patValue p text = some v) :
    tier1Loop (pre ++ p :: post) text = some v := by
  induction pre with
  | nil => simp [tier1Loop, hp]
  | cons q qs ih =>
    have hq : patValue q text = none := hpre q (List.mem_cons_self _ _)
    rw [List.cons_append]
    show (match patValue q text with
      | some v => some v
      | none => tier1Loop (qs ++ p :: post) text) = some v
    rw [hq]
    exact ih (fun r hr => hpre r (List.mem_cons_of_mem _ hr))

/-- C6 witness: the first net-income pattern matches "Net income ,,," but
the numeral fails to parse, so the second pattern's "Net earnings 7"
determines the value. -/
theorem tier1_priority_order_witness :
    tier1Loop netIncomePatterns ("Net income ,,, Net earnings 7".data) = some 7 := by
  have h := tier1_priority_order [research matchAtNetIncome1]
    [research matchAtNetIncome3] (research matchAtNetIncome2)
    ("Net income ,,, Net earnings 7".data) 7
    (by
      intro q hq
      rw [List.mem_singleton] at hq
      subst hq
      decide)
    (by decide)
  exact h

/-- C9.  Frame property of the table tier: no table row ever writes the
preferred-dividends field, so the extractor's final dividends value is the
Tier-1 match or the `0.0` default fixed before the table scan. -/
theorem table_tier_dividends_frame (doc : FilingDocument) :
    (∀ (d : FinData) (row : Row),
        (processRow d row).preferred_dividends = d.preferred_dividends) ∧
    (extract_financial_data doc).preferred_dividends =
      dividendsAfterTier1 doc.raw_text := by
  refine ⟨processRow_pd, ?_⟩
  unfold extract_financial_data
  rw [tablePass_pd]

/-- C10.  No floor in Tier 1: any parseable Tier-1 shares value `v` — with
no lower bound, so in particular `v ≤ 1000` — is stored, and it is the final
`weighted_avg_shares` whenever no table row offers a qualifying (`> 1000`)
candidate. -/
theorem tier1_shares_no_floor (text : List Char) (tables : List TableT) (v : ℚ)
    (h1 : tier1Loop sharesPatterns text = some v)
    (h2 : ∀ t ∈ tables, ∀ row ∈ t, qualShares row = []) :
    (extract_financial_data ⟨text, tables⟩).weighted_avg_shares = some v := by
  unfold extract_financial_data
  rw [tablePass_was_of_no_qual _ _ h2]
  exact h1

/-- C10 witness: the Tier-1 value 500 (below the table floor) survives a
table whose shares row offers only the non-qualifying candidate 700. -/
theorem tier1_shares_no_floor_witness :
    (extract_financial_data
        ⟨"Average shares outstanding 500".data,
         [[["Weighted average shares".data, "700".data]]]⟩).weighted_avg_shares
      = some 500 :=
  tier1_shares_no_floor ("Average shares outstanding 500".data)
    [[["Weighted average shares".data, "700".data]]] 500
    (by decide)
    (by decide)

/-- C3.  Temporal alignment witness: a sorted two-day series, filing date
before both days; exact-miss resolves forward to the earliest later day. -/
theorem closing_price_for_eq_spec_witness :
    List.Pairwise (fun p q : ℕ × ℚ => p.1 < q.1) [(2, (100 : ℚ)), (3, 102)] ∧
    closing_price_for [(2, (100 : ℚ)), (3, 102)] 1
      = closingPriceSpec [(2, (100 : ℚ)), (3, 102)] 1 ∧
    closing_price_for [(2, (100 : ℚ)), (3, 102)] 1 = some 100 :=
  ⟨by decide, closing_price_for_eq_spec _ 1 (by decide), by decide⟩

/-- C7.  Per-record failure isolation in the alignment batch: a record
whose filing-date string fails to parse gets a null close price, the batch
is never shortened, and every other record's result is exactly its own
per-record alignment, independent of the failing record. -/
theorem align_batch_isolation (parseDate : List Char → Option ℕ)
    (series : PriceSeries) (dates : List (List Char)) (i : ℕ)
    (hi : i < dates.length)
    (hbad : parseDate dates[i] = none) :
    (alignBatch parseDate series dates).length = dates.length ∧
    (alignBatch parseDate series dates)[i]? = some none ∧
    (∀ j, j ≠ i →
      (alignBatch parseDate series dates)[j]? =
        (dates[j]?).map (alignOne parseDate series)) := by
  rw [alignBatch_eq_map]
  refine ⟨List.length_map _ _, ?_, ?_⟩
  · rw [List.getElem?_map, List.getElem?_eq_getElem hi]
    simp [alignOne, hbad]
  · intro j _
    rw [List.getElem?_map]

/-- C7 witness: record 0 has an unparseable date and gets `none`; record 1
still aligns to the close at day 2. -/
theorem align_batch_isolation_witness :
    (alignBatch (fun s => if s = "2".data then some 2 else none)
        [(2, (100 : ℚ))] ["bad".data, "2".data])[0]? = some none ∧
    (alignBatch (fun s => if s = "2".data then some 2 else none)
        [(2, (100 : ℚ))] ["bad".data, "2".data])[1]? = some (some 100) := by
  have h := align_batch_isolation
    (fun s => if s = "2".data then some 2 else none)
    [(2, (100 : ℚ))] ["bad".data, "2".data] 0 (by decide) (by decide)
  refine ⟨h.2.1, ?_⟩
  rw [h.2.2 1 (by decide)]
  decide

/-- C4 (code bug).  The net-income regexes capture a parenthesized numeral
without its parenthesis and never negate: on a loss written "(1,234)" the
extractor returns the positive value 1234.0, not a negative one. -/
theorem paren_loss_extracted_positive :
    (extract_financial_data ⟨"Net income (1,234)".data, []⟩).net_income
      = some 1234 ∧ (0 : ℚ) < 1234 :=
  ⟨by decide, by decide⟩

/-- C8.  End-to-end scenario: the spec's sample document yields net income
1234.0, the dividend default 0.0, and 10500000000.0 shares. -/
theorem end_to_end_extraction :
    extract_financial_data
        ⟨("Net income $1,234 ... Weighted average shares outstanding 10,500,000,000").data,
         []⟩
      = ⟨some 1234, some 0, some 10500000000⟩ := by
  decide
